import Mathlib

/-!
Verification of the contour-geometry core of `pylidc/Annotation.py`.

The Python source is shallowly embedded below: machine floats become exact
rationals (`ℚ`), numpy arrays become Lean lists or explicit
dimensions-plus-index-function records, and fallible operations (dictionary
lookups, raised exceptions) return `Option`/`Except`.  Every definition is
translated from the source file, keeping the source's names where Lean
allows it; line numbers in doc comments refer to `pylidc/Annotation.py`.
-/

/-- A radiologist-drawn contour as consumed by `Annotation`: the ordered
`(x, y)` points of `contour.to_matrix()[:, :2]` in pixel coordinates, the
`inclusion` flag, and the physical `image_z_position` in mm (the constant
third column of `to_matrix()`). -/
structure Contour where
  points : List (ℚ × ℚ)
  inclusion : Bool
  z : ℚ
deriving DecidableEq

/-- The `Scan` collaborator fields used by the geometry core:
`pixel_spacing` (mm/pixel, isotropic in x and y) and `slice_thickness`
(mm, fallback for single-contour annotations). -/
structure Scan where
  pixel_spacing : ℚ
  slice_thickness : ℚ
deriving DecidableEq

/-- `np.unique(...)`: the sorted list of the distinct values. -/
def dedupSort (l : List ℚ) : List ℚ := l.dedup.insertionSort (· ≤ ·)

/-- numpy `astype(int)` on a float value: truncation toward zero. -/
def truncInt (q : ℚ) : ℤ := if 0 ≤ q then ⌊q⌋ else -⌊-q⌋

/-- numpy `.min()` over a vector; the geometry core only applies it to
nonempty point lists (an annotation has at least one contour point). -/
def listMin (l : List ℚ) : ℚ := l.foldl min (l.headD 0)

/-- numpy `.max()` over a vector, as in `listMin`. -/
def listMax (l : List ℚ) : ℚ := l.foldl max (l.headD 0)

/-- numpy scalar indexing `l[i]` with python negative-index wrap-around.
Reads outside `[-len, len)` (which numpy would reject at runtime) return 0;
they are unreachable in the uses below, where the index is the argmin of a
list that starts and ends with padding entries. -/
def npGet (l : List ℚ) (i : ℤ) : ℚ :=
  if i < 0 then l.getD (l.length - (-i).toNat) 0 else l.getD i.toNat 0

/-- Accumulator loop for `np.argmin(np.abs(t - l))`: `i` is the index of the
head of the remaining list, `bi`/`bv` the best index and best value so far.
The strict `<` keeps the first index achieving the minimum, as numpy does. -/
def argminAbsAux (t : ℚ) : List ℚ → ℕ → ℕ → ℚ → ℕ
  | [], _, bi, _ => bi
  | v :: rest, i, bi, bv =>
    if |t - v| < bv then argminAbsAux t rest (i + 1) i (|t - v|)
    else argminAbsAux t rest (i + 1) bi bv

/-- `np.argmin(np.abs(t - l))`: the first index of `l` minimizing the
absolute difference to `t` (0 on the empty list, unreachable here). -/
def argminAbs (t : ℚ) : List ℚ → ℕ
  | [] => 0
  | v :: rest => argminAbsAux t rest 1 0 (|t - v|)

/-- `np.roll(l, 1)`: rotate the vector one position to the right. -/
def roll1 (l : List ℚ) : List ℚ :=
  match l with
  | [] => []
  | _ :: _ => l.getLastD 0 :: l.dropLast

/-- `np.dot` of two equal-length vectors. -/
def dotL (a b : List ℚ) : ℚ := (List.zipWith (· * ·) a b).sum

/-- Line 289: the "shoelace" polygon area
`0.5*np.abs(np.dot(x, np.roll(y,1)) - np.dot(y, np.roll(x,1)))`. -/
def shoelaceArea (pts : List (ℚ × ℚ)) : ℚ :=
  let x := pts.map Prod.fst
  let y := pts.map Prod.snd
  (1 / 2) * |dotL x (roll1 y) - dotL y (roll1 x)|

/-- Numpy broadcasting `contour.to_matrix() * pixel_spacing` restricted to
the two point coordinates actually read afterwards. -/
def scalePt (s : ℚ) (p : ℚ × ℚ) : ℚ × ℚ := (s * p.1, s * p.2)

/-- Lines 278–280 of `estimate_volume`:
`zvals = np.pad(zvals, 2, 'constant')` (two zero entries added on each
side), then `zvals[0] = zvals[0] - (zvals[1]-zvals[0])` and
`zvals[-1] = zvals[-1] + (zvals[-1]-zvals[-2])`.  Both assignments read
the zero padding entries, so they write back 0. -/
def paddedZvals (zs : List ℚ) : List ℚ :=
  let p := [(0 : ℚ), 0] ++ zs ++ [0, 0]
  let p1 := p.set 0 (p.getD 0 0 - (p.getD 1 0 - p.getD 0 0))
  p1.set (p1.length - 1)
    (p1.getD (p1.length - 1) 0 + (p1.getD (p1.length - 1) 0 - p1.getD (p1.length - 2) 0))

/-- `Annotation.estimate_volume` (lines 249–298): shoelace area per contour,
times a per-contour slice thickness taken from the padded z array (or the
scan's `slice_thickness` when the annotation has exactly one contour),
summed with sign `+1` for inclusion and `-1` for exclusion contours. -/
def estimate_volume (scan : Scan) (contours : List Contour) : ℚ :=
  let zvalsU := dedupSort (contours.map (·.z))
  let zvals : Option (List ℚ) :=
    if contours.length ≠ 1 then some (paddedZvals zvalsU) else none
  contours.foldl
    (fun volume contour =>
      let contour_array := contour.points.map (scalePt scan.pixel_spacing)
      let area := shoelaceArea contour_array
      let spacing_z : ℚ :=
        match zvals with
        | some zv =>
          let j := argminAbs contour.z zv
          (1 / 2) * (npGet zv ((j : ℤ) + 1) - npGet zv ((j : ℤ) - 1))
        | none => scan.slice_thickness
      volume + (if contour.inclusion then 1 else -1) * area * spacing_z)
    0

/-- A unit-square inclusion contour lying on the slice at height `z`. -/
def unitSquareAt (z : ℚ) : Contour :=
  ⟨[(0, 0), (1, 0), (1, 1), (0, 1)], true, z⟩

/-- Squared Euclidean distance between two points: the square of one entry
of `squareform(pdist(contour_array))`. -/
def sqDist (p q : ℚ × ℚ) : ℚ := (p.1 - q.1) ^ 2 + (p.2 - q.2) ^ 2

/-- All entries of the pairwise distance matrix
`squareform(pdist(pts))`, squared: the squared distance of every ordered
pair of points, the zero diagonal included. -/
def pairSqDists (pts : List (ℚ × ℚ)) : List ℚ :=
  pts.flatMap fun p => pts.map fun q => sqDist p q

/-- `diameters.max()` of lines 236–237, squared: the maximum pairwise
squared distance over the contour's points scaled by the pixel spacing.
The source maximizes Euclidean distances; since `Real.sqrt` is monotone,
tracking squares is equivalent (`sqrt_foldlMax` below makes this exact). -/
def contourDiamSq (s : ℚ) (pts : List (ℚ × ℚ)) : ℚ :=
  (pairSqDists (pts.map (scalePt s))).foldl max 0

/-- The contour loop of `estimate_diameter` (lines 225–242), tracking
`(greatest_diameter², contour index)`.  `none` models the initial
`greatest_diameter = -np.inf` state, which any computed diameter exceeds.
A single-point contour is skipped (line 231), and the accumulator is
replaced only on a strictly greater diameter, exactly as the float
comparison `diameter > greatest_diameter` does. -/
def diamLoop (s : ℚ) : List Contour → ℕ → Option (ℚ × ℕ) → Option (ℚ × ℕ)
  | [], _, acc => acc
  | c :: rest, idx, acc =>
    if c.points.length = 1 then diamLoop s rest (idx + 1) acc
    else
      let d := contourDiamSq s c.points
      let acc' : Option (ℚ × ℕ) :=
        match acc with
        | none => some (d, idx)
        | some (g, i) => if g < d then some (d, idx) else some (g, i)
      diamLoop s rest (idx + 1) acc'

/-- `Annotation.estimate_diameter` (lines 205–247) in squared form: the
squared greatest diameter together with the index of the contour achieving
it, or `none` when every contour is a single point (the source then
returns `-np.inf` with placeholder indices). -/
def estimate_diameter_sq (scan : Scan) (contours : List Contour) : Option (ℚ × ℕ) :=
  diamLoop scan.pixel_spacing contours 0 none

/-- `Annotation.estimate_diameter` in mm: the square root of the tracked
maximum squared pairwise distance. -/
noncomputable def estimate_diameter (scan : Scan) (contours : List Contour) : Option ℝ :=
  (estimate_diameter_sq scan contours).map fun di => Real.sqrt (di.1 : ℝ)

/-- Reference value for the diameter claim, squared: the maximum over the
contours with at least two points of that contour's maximum pairwise
squared distance. -/
def diamSpecSq (s : ℚ) (contours : List Contour) : ℚ :=
  ((contours.filter fun c => 2 ≤ c.points.length).map
    fun c => contourDiamSq s c.points).foldl max 0

/-- A numpy boolean 3-d array as used by `as_boolean_mask`: dimensions plus
an index function (reads outside the dimensions are unused). -/
structure Grid3 where
  nx : ℕ
  ny : ℕ
  nz : ℕ
  val : ℕ → ℕ → ℕ → Bool

/-- A 3×2 bounding-box matrix: the per-axis (min, max) rows. -/
structure BBox3 where
  r0 : ℚ × ℚ
  r1 : ℚ × ℚ
  r2 : ℚ × ℚ
deriving DecidableEq

/-- `Annotation.bbox()` (lines 181–194): column-wise min/max over the
stacked contour point matrix (each point of a contour contributes that
contour's `image_z_position` as its third coordinate). -/
def bboxOf (cs : List Contour) : BBox3 :=
  let xs := cs.flatMap fun c => c.points.map Prod.fst
  let ys := cs.flatMap fun c => c.points.map Prod.snd
  let zs := cs.flatMap fun c => c.points.map fun _ => c.z
  ⟨(listMin xs, listMax xs), (listMin ys, listMax ys), (listMin zs, listMax zs)⟩

/-- Lines 515–519 (and 533–537): close the contour by appending its first
point, but only when the numpy test
`(contour_matrix[0] != contour_matrix[-1]).all()` holds — that is, when
BOTH coordinates of the first and the last point differ. -/
def closeContour (pts : List (ℚ × ℚ)) : List (ℚ × ℚ) :=
  match pts.head?, pts.getLast? with
  | some p0, some pn =>
    if p0.1 ≠ pn.1 ∧ p0.2 ≠ pn.2 then pts ++ [p0] else pts
  | _, _ => pts

/-- Line 496: the dictionary `z_to_index` mapping each distinct
`image_z_position` to its index in sorted order. -/
def zIdxOf (cs : List Contour) (z : ℚ) : ℕ :=
  (dedupSort (cs.map (·.z))).indexOf z

/-- Line 507: the test point of grid cell `(i, j)` — the integer pixel
coordinates offset by the bounding box x/y minima (`bbox[:2,0]`). -/
def testPoint (cs : List Contour) (i j : ℕ) : ℚ × ℚ :=
  ((bboxOf cs).r0.1 + i, (bboxOf cs).r1.1 + j)

/-- Lines 510–525, one step: an inclusion contour OVERWRITES its z slice of
the mask with the containment result of its closed polygon over all test
points; other contours leave the mask unchanged. -/
def inclStep (contains : List (ℚ × ℚ) → ℚ × ℚ → Bool) (cs : List Contour)
    (m : Grid3) (contour : Contour) : Grid3 :=
  if contour.inclusion then
    { m with
      val := fun i j k =>
        if k = zIdxOf cs contour.z then
          contains (closeContour contour.points) (testPoint cs i j)
        else m.val i j k }
  else m

/-- Lines 528–542, one step: an exclusion contour ANDs its z slice of the
mask with the negated containment result of its closed polygon. -/
def exclStep (contains : List (ℚ × ℚ) → ℚ × ℚ → Bool) (cs : List Contour)
    (m : Grid3) (contour : Contour) : Grid3 :=
  if !contour.inclusion then
    { m with
      val := fun i j k =>
        if k = zIdxOf cs contour.z then
          m.val i j k && !contains (closeContour contour.points) (testPoint cs i j)
        else m.val i j k }
  else m

/-- `Annotation.as_boolean_mask` (lines 476–546), parameterized by the
matplotlib collaborator: `contains poly pt` models
`mplpath.Path(poly, closed=True).contains_points([pt])`.  Internally axis 0
indexes x offsets from `bbox[0,0]`, axis 1 y offsets, axis 2 the sorted
distinct contour z positions; inclusion contours are applied first, then
exclusion contours; the first two axes of the grid and the first two rows
of the bounding box are swapped on return. -/
def as_boolean_mask (contains : List (ℚ × ℚ) → ℚ × ℚ → Bool)
    (cs : List Contour) : Grid3 × BBox3 :=
  let bbox := bboxOf cs
  let nx : ℕ := (truncInt (bbox.r0.2 - bbox.r0.1) + 1).toNat
  let ny : ℕ := (truncInt (bbox.r1.2 - bbox.r1.1) + 1).toNat
  let nz : ℕ := (dedupSort (cs.map (·.z))).length
  let mask0 : Grid3 := ⟨nx, ny, nz, fun _ _ _ => false⟩
  let mask1 := cs.foldl (inclStep contains cs) mask0
  let mask2 := cs.foldl (exclStep contains cs) mask1
  (⟨mask2.ny, mask2.nx, mask2.nz, fun i j k => mask2.val j i k⟩,
   ⟨bbox.r1, bbox.r0, bbox.r2⟩)

/-- Lines 18–28: the nine characteristic column names. -/
def _all_characteristics_ : List String :=
  ["subtlety", "internalStructure", "calcification", "sphericity",
   "margin", "lobulation", "spiculation", "texture", "malignancy"]

/-- Lines 29–30: the attribute names protected by the write guard. -/
def _off_limits : List String :=
  ["id", "scan_id", "_nodule_id", "scan"] ++ _all_characteristics_

/-- `Annotation.__setattr__` (lines 76–82) over an attribute map: assigning
a protected name raises `ValueError` — with the message interpolating the
name and the value — before any state change (the error branch carries no
state, so every attribute is left unchanged); any other assignment updates
exactly the named attribute. -/
def annotationSetattr {V : Type} (repr_ : V → String)
    (state : String → Option V) (name : String) (value : V) :
    Except String (String → Option V) :=
  if name ∈ _off_limits then
    Except.error ("Trying to assign read-only Annotation object attribute `"
      ++ name ++ "` a value of `" ++ repr_ value ++ "`.")
  else
    Except.ok fun n => if n = name then some value else state n

/-- The errors `to_volume` can raise: the dictionary `KeyError` of the gap
reconciliation (line 601) and the three `IndexError`s naming an axis
together with the two computed padded indices (lines 603–607 and
621–632). -/
inductive VolumeError where
  | keyError (z : ℚ)
  | zOut (indexMinusPad indexPlusPad : ℤ)
  | xOut (indexMinusPad indexPlusPad : ℤ)
  | yOut (indexMinusPad indexPlusPad : ℤ)
deriving DecidableEq

/-- Numpy slice assignment `mask[:, :, k] = s`. -/
def setSlice (m : Grid3) (k : ℕ) (s : ℕ → ℕ → Bool) : Grid3 :=
  { m with val := fun i j k2 => if k2 = k then s i j else m.val i j k2 }

/-- Line 601, one iteration: place original slice `k` at the index
`z_to_index[contour_zs[k]]` of the new mask.  The dictionary built over the
span of scan z positions maps a present key to the index of its first
occurrence and raises `KeyError` for an absent key. -/
def reconcileStep (old : Grid3) (contourZs spanZs : List ℚ) (m : Grid3)
    (k : ℕ) : Except VolumeError Grid3 :=
  if contourZs.getD k 0 ∈ spanZs then
    Except.ok (setSlice m (spanZs.indexOf (contourZs.getD k 0))
      fun i j => old.val i j k)
  else Except.error (VolumeError.keyError (contourZs.getD k 0))

/-- Lines 587–601: build the gap-reconciled mask — all-false of z length
`span = zi_stop - zi_start + 1`, then place each original slice at the
span index of its contour z position. -/
def reconcileMask (old : Grid3) (contourZs spanZs : List ℚ) (span : ℕ) :
    Except VolumeError Grid3 :=
  (List.range old.nz).foldlM (reconcileStep old contourZs spanZs)
    ⟨old.nx, old.ny, span, fun _ _ _ => false⟩

/-- A small concrete 1×1×2 mask used as a reconciliation witness. -/
def sampleOldMask : Grid3 := ⟨1, 1, 2, fun _ _ k => k == 0⟩

/-- A numpy number-valued 3-d array (the CT intensity volume); intensity
values are integers in the source DICOM data. -/
structure Grid3I where
  nx : ℕ
  ny : ℕ
  nz : ℕ
  val : ℕ → ℕ → ℕ → ℤ

/-- `np.pad(mask, pad_width=pad, mode='constant')`: false-fill padding on
all three axes. -/
def padGrid (m : Grid3) (pad : (ℕ × ℕ) × (ℕ × ℕ) × (ℕ × ℕ)) : Grid3 :=
  ⟨pad.1.1 + m.nx + pad.1.2, pad.2.1.1 + m.ny + pad.2.1.2,
   pad.2.2.1 + m.nz + pad.2.2.2,
   fun i j k =>
     if pad.1.1 ≤ i ∧ i < pad.1.1 + m.nx ∧ pad.2.1.1 ≤ j ∧
        j < pad.2.1.1 + m.ny ∧ pad.2.2.1 ≤ k ∧ k < pad.2.2.1 + m.nz then
       m.val (i - pad.1.1) (j - pad.2.1.1) (k - pad.2.2.1)
     else false⟩

/-- Lines 603–642 of `to_volume` (after the gap reconciliation): the
z-bounds check against the raw image-stack length, trimming of the image
stack, mask padding, the x and y bounds checks against the 512-pixel
frame, and the extraction of the CT sub-volume.  `bbox` is the
axis-swapped box returned by `as_boolean_mask`, so its row 0 is paired
with the volume's first axis as in the source. -/
def to_volume_core (images : List (ℚ × (ℕ → ℕ → ℤ))) (bbox : BBox3)
    (mask1 : Grid3) (zi_start zi_stop : ℕ)
    (pad : (ℕ × ℕ) × (ℕ × ℕ) × (ℕ × ℕ)) :
    Except VolumeError (Grid3I × Grid3 × BBox3) :=
  if (zi_start : ℤ) - pad.2.2.1 < 0 ∨
     (zi_stop : ℤ) + pad.2.2.2 ≥ images.length then
    Except.error (VolumeError.zOut ((zi_start : ℤ) - pad.2.2.1)
      ((zi_stop : ℤ) + pad.2.2.2))
  else
    let zi_start2 := zi_start - pad.2.2.1
    let zi_stop2 := zi_stop + pad.2.2.2
    let images2 := ((images.map Prod.snd).drop zi_start2).take
      (zi_stop2 + 1 - zi_start2)
    let mask2 := padGrid mask1 pad
    if truncInt bbox.r0.1 - pad.1.1 < 0 ∨
       truncInt bbox.r0.2 + 1 + pad.1.2 ≥ 512 then
      Except.error (VolumeError.xOut (truncInt bbox.r0.1 - pad.1.1)
        (truncInt bbox.r0.2 + 1 + pad.1.2))
    else if truncInt bbox.r1.1 - pad.2.1.1 < 0 ∨
        truncInt bbox.r1.2 + 1 + pad.2.1.2 ≥ 512 then
      Except.error (VolumeError.yOut (truncInt bbox.r1.1 - pad.2.1.1)
        (truncInt bbox.r1.2 + 1 + pad.2.1.2))
    else
      let x0 := (truncInt bbox.r0.1 - pad.1.1).toNat
      let y0 := (truncInt bbox.r1.1 - pad.2.1.1).toNat
      let nodule : Grid3I :=
        ⟨mask2.nx, mask2.ny, mask2.nz,
         fun i j k => (images2.getD k fun _ _ => 0) (x0 + i) (y0 + j)⟩
      Except.ok (nodule, mask2, bbox)

/-- Lines 574–576: `np.unique` of the physical z positions of the loaded
image stack. -/
def imgZsOf (images : List (ℚ × (ℕ → ℕ → ℤ))) : List ℚ :=
  dedupSort (images.map Prod.fst)

/-- Line 581: `zi_start`, the image-stack index whose z position is
nearest `bbox[2,0]`. -/
def ziStartOf (contains : List (ℚ × ℚ) → ℚ × ℚ → Bool)
    (images : List (ℚ × (ℕ → ℕ → ℤ))) (cs : List Contour) : ℕ :=
  argminAbs ((as_boolean_mask contains cs).2.r2.1) (imgZsOf images)

/-- Line 582: `zi_stop`, the image-stack index whose z position is
nearest `bbox[2,1]`. -/
def ziStopOf (contains : List (ℚ × ℚ) → ℚ × ℚ → Bool)
    (images : List (ℚ × (ℕ → ℕ → ℤ))) (cs : List Contour) : ℕ :=
  argminAbs ((as_boolean_mask contains cs).2.r2.2) (imgZsOf images)

/-- The contiguous scan-slice index span `zi_stop - zi_start + 1` covered
by the bounding box. -/
def spanOf (contains : List (ℚ × ℚ) → ℚ × ℚ → Bool)
    (images : List (ℚ × (ℕ → ℕ → ℤ))) (cs : List Contour) : ℕ :=
  ziStopOf contains images cs + 1 - ziStartOf contains images cs

/-- Line 596: the z positions `img_zs[zi_start:zi_stop+1]` of the span,
the keys of the reconciliation dictionary. -/
def spanZsOf (contains : List (ℚ × ℚ) → ℚ × ℚ → Bool)
    (images : List (ℚ × (ℕ → ℕ → ℤ))) (cs : List Contour) : List ℚ :=
  ((imgZsOf images).drop (ziStartOf contains images cs)).take
    (spanOf contains images cs)

/-- `Annotation.to_volume` (lines 548–642) on the `new_spacing=None` path,
parameterized by the containment collaborator and the loaded image stack
(each image its physical z position and its 512×512 `pixel_array`).  The
gap reconciliation of lines 584–601 runs when the mask's z length differs
from the contiguous span; the rest is `to_volume_core`. -/
def to_volume (contains : List (ℚ × ℚ) → ℚ × ℚ → Bool)
    (images : List (ℚ × (ℕ → ℕ → ℤ))) (cs : List Contour)
    (pad : (ℕ × ℕ) × (ℕ × ℕ) × (ℕ × ℕ)) :
    Except VolumeError (Grid3I × Grid3 × BBox3) :=
  match (if (as_boolean_mask contains cs).1.nz ≠ spanOf contains images cs
         then reconcileMask (as_boolean_mask contains cs).1
           (dedupSort (cs.map (·.z))) (spanZsOf contains images cs)
           (spanOf contains images cs)
         else Except.ok (as_boolean_mask contains cs).1) with
  | Except.error e => Except.error e
  | Except.ok mask1 =>
    to_volume_core images (as_boolean_mask contains cs).2 mask1
      (ziStartOf contains images cs) (ziStopOf contains images cs) pad

/-- C5: for an annotation with exactly one contour, `estimate_volume`
returns exactly `±A·T`: the shoelace area `A` of the contour's points
scaled by the scan's pixel spacing, times the scan's `slice_thickness`
`T`, added for an inclusion contour and subtracted for an exclusion
contour. -/
theorem estimate_volume_single_contour (scan : Scan) (c : Contour) :
    estimate_volume scan [c] =
      (if c.inclusion then 1 else -1) *
        shoelaceArea (c.points.map (scalePt scan.pixel_spacing)) *
        scan.slice_thickness := by
  simp [estimate_volume]

/-- C1 (code bug): `np.pad(zvals, 2, 'constant')` pads the sorted distinct
z array `[10, 15]` with TWO zeros on each side, and the two endpoint
assignments then read those zeros, so the "extended" array is
`[0, 0, 10, 15, 0, 0]` rather than the mirrored `[5, 10, 15, 20]` that the
method's own docstring and comments describe.  For two unit squares at
z = 10 and z = 15 (pixel spacing 1) the slice thicknesses computed against
the zeros are `15/2` and `-5`, so the volume evaluates to `5/2` instead of
the `5 + 5 = 10` that mirrored boundary values would give. -/
theorem estimate_volume_pad_eval :
    paddedZvals [10, 15] = [0, 0, 10, 15, 0, 0] ∧
    estimate_volume ⟨1, 1⟩ [unitSquareAt 10, unitSquareAt 15] = 5 / 2 := by
  constructor
  · norm_num [paddedZvals]
  · norm_num [estimate_volume, dedupSort, paddedZvals, argminAbs, argminAbsAux,
      npGet, shoelaceArea, dotL, roll1, scalePt, unitSquareAt,
      List.insertionSort, List.orderedInsert, List.dedup]
    norm_num [show Int.toNat 3 = 3 from rfl, show Int.toNat 4 = 4 from rfl,
      show Int.toNat 2 - 1 = 1 from rfl, show Int.toNat 3 - 1 = 2 from rfl]

theorem foldlMax_init_le (l : List ℚ) (b : ℚ) : b ≤ l.foldl max b := by
  induction l generalizing b with
  | nil => exact le_refl b
  | cons x xs ih => exact le_trans (le_max_left b x) (ih (max b x))

theorem foldlMax_le (l : List ℚ) (b x : ℚ) (hb : b ≤ x)
    (h : ∀ y ∈ l, y ≤ x) : l.foldl max b ≤ x := by
  induction l generalizing b with
  | nil => exact hb
  | cons z zs ih =>
    exact ih (max b z) (max_le hb (h z (List.mem_cons_self z zs)))
      fun y hy => h y (List.mem_cons_of_mem z hy)

theorem mem_le_foldlMax (l : List ℚ) (b y : ℚ) (hy : y ∈ l) :
    y ≤ l.foldl max b := by
  induction l generalizing b with
  | nil => exact absurd hy (List.not_mem_nil y)
  | cons z zs ih =>
    rw [List.foldl_cons]
    rcases List.mem_cons.mp hy with h | h
    · subst h
      exact le_trans (le_max_right b y) (foldlMax_init_le zs (max b y))
    · exact ih (max b z) h

theorem contourDiamSq_nonneg (s : ℚ) (pts : List (ℚ × ℚ)) :
    0 ≤ contourDiamSq s pts :=
  foldlMax_init_le _ 0

/-- Taking square roots commutes with a running maximum: the bridge between
the source's comparisons of Euclidean distances and the squared distances
tracked in the embedding. -/
theorem sqrt_foldlMax (l : List ℚ) (b : ℚ) :
    Real.sqrt ((l.foldl max b : ℚ) : ℝ) =
      (l.map fun q : ℚ => Real.sqrt (q : ℝ)).foldl max (Real.sqrt (b : ℝ)) := by
  induction l generalizing b with
  | nil => rfl
  | cons x xs ih =>
    have hm : Monotone Real.sqrt := fun _ _ h => Real.sqrt_le_sqrt h
    have hcast : ((max b x : ℚ) : ℝ) = max (b : ℝ) (x : ℝ) := by
      push_cast
      rfl
    rw [List.foldl_cons, ih (max b x), List.map_cons, List.foldl_cons, hcast,
      hm.map_max]

/-- Unfolding `diamLoop` over the last contour of the list. -/
theorem diamLoop_append_single (s : ℚ) (cs : List Contour) (c : Contour)
    (idx : ℕ) (acc : Option (ℚ × ℕ)) :
    diamLoop s (cs ++ [c]) idx acc =
      (if c.points.length = 1 then diamLoop s cs idx acc
       else
         match diamLoop s cs idx acc with
         | none => some (contourDiamSq s c.points, idx + cs.length)
         | some (g, i) =>
           if g < contourDiamSq s c.points then
             some (contourDiamSq s c.points, idx + cs.length)
           else some (g, i)) := by
  induction cs generalizing idx acc with
  | nil =>
    by_cases h : c.points.length = 1
    · simp [diamLoop, h]
    · cases acc with
      | none => simp [diamLoop, h]
      | some gi => cases gi with
        | mk g i =>
          by_cases hlt : g < contourDiamSq s c.points <;>
            simp [diamLoop, h, hlt]
  | cons c' rest ih =>
    have harith : idx + 1 + rest.length = idx + (rest.length + 1) := by omega
    have hstep : ∀ L : List Contour, diamLoop s (c' :: L) idx acc =
        diamLoop s L (idx + 1)
          (if c'.points.length = 1 then acc
           else
             match acc with
             | none => some (contourDiamSq s c'.points, idx)
             | some (g, i) =>
               if g < contourDiamSq s c'.points then
                 some (contourDiamSq s c'.points, idx)
               else some (g, i)) := by
      intro L
      by_cases h' : c'.points.length = 1 <;> simp [diamLoop, h']
    rw [List.cons_append, hstep, hstep, ih, harith, List.length_cons]

/-- Full characterization of the `estimate_diameter` loop: it returns `none`
exactly when every contour is a single point; otherwise it returns the
maximum squared diameter over the non-skipped contours together with the
first (least) contour index attaining that maximum. -/
theorem diamLoop_char (s : ℚ) (cs : List Contour) :
    (diamLoop s cs 0 none = none ↔ ∀ c ∈ cs, c.points.length = 1) ∧
    (∀ d i, diamLoop s cs 0 none = some (d, i) →
      ∃ hi : i < cs.length,
        (cs.get ⟨i, hi⟩).points.length ≠ 1 ∧
        contourDiamSq s (cs.get ⟨i, hi⟩).points = d ∧
        (∀ j (hj : j < cs.length), (cs.get ⟨j, hj⟩).points.length ≠ 1 →
          contourDiamSq s (cs.get ⟨j, hj⟩).points ≤ d) ∧
        (∀ j (hj : j < cs.length), j < i → (cs.get ⟨j, hj⟩).points.length ≠ 1 →
          contourDiamSq s (cs.get ⟨j, hj⟩).points < d)) := by
  induction cs using List.reverseRecOn with
  | nil =>
    refine ⟨by simp [diamLoop], ?_⟩
    intro d i h
    simp [diamLoop] at h
  | append_singleton l c ih =>
    obtain ⟨ih1, ih2⟩ := ih
    have hL : (l ++ [c]).length = l.length + 1 := by simp
    have hgetlast : ∀ h : l.length < (l ++ [c]).length,
        (l ++ [c]).get ⟨l.length, h⟩ = c := by
      intro h
      rw [List.get_eq_getElem]
      exact List.getElem_concat_length l c l.length rfl h
    have hgetl : ∀ j (hj : j < l.length) (h : j < (l ++ [c]).length),
        (l ++ [c]).get ⟨j, h⟩ = l.get ⟨j, hj⟩ := by
      intro j hj h
      rw [List.get_eq_getElem, List.get_eq_getElem]
      exact List.getElem_append_left hj
    simp only [diamLoop_append_single]
    by_cases hc : c.points.length = 1
    · rw [if_pos hc]
      constructor
      · rw [ih1, List.forall_mem_append, List.forall_mem_singleton]
        exact ⟨fun h => ⟨h, hc⟩, fun h => h.1⟩
      · intro d i h
        obtain ⟨hi, hne1, heq, hmax, hfirst⟩ := ih2 d i h
        have hi' : i < (l ++ [c]).length := by rw [hL]; omega
        refine ⟨hi', ?_, ?_, ?_, ?_⟩
        · rw [hgetl i hi hi']; exact hne1
        · rw [hgetl i hi hi']; exact heq
        · intro j hj hne
          by_cases hjl : j < l.length
          · rw [hgetl j hjl hj] at hne ⊢
            exact hmax j hjl hne
          · have hj_eq : j = l.length := by rw [hL] at hj; omega
            subst hj_eq
            rw [hgetlast hj] at hne
            exact absurd hc hne
        · intro j hj hji hne
          have hjl : j < l.length := by omega
          rw [hgetl j hjl hj] at hne ⊢
          exact hfirst j hjl hji hne
    · rw [if_neg hc]
      cases hpref : diamLoop s l 0 none with
      | none =>
        have hall : ∀ x ∈ l, x.points.length = 1 := ih1.mp hpref
        constructor
        · constructor
          · intro h
            simp at h
          · intro hforall
            exact absurd (hforall c (by simp)) hc
        · intro d i h
          simp only [Nat.zero_add, Option.some.injEq, Prod.mk.injEq] at h
          obtain ⟨hd, hi⟩ := h
          subst hd
          subst hi
          have hi' : l.length < (l ++ [c]).length := by omega
          refine ⟨hi', ?_, ?_, ?_, ?_⟩
          · rw [hgetlast hi']; exact hc
          · rw [hgetlast hi']
          · intro j hj hne
            by_cases hjl : j < l.length
            · rw [hgetl j hjl hj] at hne
              exact absurd (hall _ (List.get_mem l j hjl)) hne
            · have hj_eq : j = l.length := by rw [hL] at hj; omega
              subst hj_eq
              rw [hgetlast hj]
          · intro j hj hji hne
            have hjl : j < l.length := by omega
            rw [hgetl j hjl hj] at hne
            exact absurd (hall _ (List.get_mem l j hjl)) hne
      | some gi =>
        obtain ⟨g, ip⟩ := gi
        obtain ⟨hip, hne1, heq, hmax, hfirst⟩ := ih2 g ip hpref
        constructor
        · constructor
          · intro h
            split at h
            · simp at h
            · split at h <;> simp at h
          · intro hforall
            exact absurd (hforall c (by simp)) hc
        · intro d i h
          by_cases hlt : g < contourDiamSq s c.points
          · simp only [hlt, if_true, Nat.zero_add, Option.some.injEq,
              Prod.mk.injEq] at h
            obtain ⟨hd, hi⟩ := h
            subst hd
            subst hi
            have hi' : l.length < (l ++ [c]).length := by omega
            refine ⟨hi', ?_, ?_, ?_, ?_⟩
            · rw [hgetlast hi']; exact hc
            · rw [hgetlast hi']
            · intro j hj hne
              by_cases hjl : j < l.length
              · rw [hgetl j hjl hj] at hne ⊢
                exact le_of_lt (lt_of_le_of_lt (hmax j hjl hne) hlt)
              · have hj_eq : j = l.length := by rw [hL] at hj; omega
                subst hj_eq
                rw [hgetlast hj]
            · intro j hj hji hne
              have hjl : j < l.length := by omega
              rw [hgetl j hjl hj] at hne ⊢
              exact lt_of_le_of_lt (hmax j hjl hne) hlt
          · simp only [hlt, if_false, Option.some.injEq, Prod.mk.injEq] at h
            obtain ⟨hd, hi⟩ := h
            subst hd
            subst hi
            have hi' : ip < (l ++ [c]).length := by rw [hL]; omega
            refine ⟨hi', ?_, ?_, ?_, ?_⟩
            · rw [hgetl ip hip hi']; exact hne1
            · rw [hgetl ip hip hi']; exact heq
            · intro j hj hne
              by_cases hjl : j < l.length
              · rw [hgetl j hjl hj] at hne ⊢
                exact hmax j hjl hne
              · have hj_eq : j = l.length := by rw [hL] at hj; omega
                subst hj_eq
                rw [hgetlast hj] at hne ⊢
                exact not_lt.mp hlt
            · intro j hj hji hne
              have hjl : j < l.length := by omega
              rw [hgetl j hjl hj] at hne ⊢
              exact hfirst j hjl hji hne

/-- C4: for an annotation containing a contour with two or more points,
`estimate_diameter` returns the maximum, over the contours with at least
two points, of the maximum pairwise Euclidean distance between that
contour's points scaled by the scan's pixel spacing; single-point contours
are skipped; the maximum is tracked with a strict greater-than comparison,
so the recorded contour index is the first one achieving a tied maximum;
and a contour with points (0,0) and (3,4) at unit spacing yields 5.0. -/
theorem estimate_diameter_spec (scan : Scan) (cs : List Contour)
    (hne : ∀ c ∈ cs, c.points ≠ [])
    (hex : ∃ c ∈ cs, 2 ≤ c.points.length) :
    (∃ d i, estimate_diameter_sq scan cs = some (d, i) ∧
      d = diamSpecSq scan.pixel_spacing cs ∧
      estimate_diameter scan cs = some (Real.sqrt (d : ℝ)) ∧
      ∃ hi : i < cs.length,
        2 ≤ (cs.get ⟨i, hi⟩).points.length ∧
        contourDiamSq scan.pixel_spacing (cs.get ⟨i, hi⟩).points = d ∧
        ∀ j (hj : j < cs.length), j < i →
          2 ≤ (cs.get ⟨j, hj⟩).points.length →
          contourDiamSq scan.pixel_spacing (cs.get ⟨j, hj⟩).points < d) ∧
    estimate_diameter scan cs =
      some (((cs.filter fun c => 2 ≤ c.points.length).map fun c =>
        ((pairSqDists (c.points.map (scalePt scan.pixel_spacing))).map
          fun q : ℚ => Real.sqrt (q : ℝ)).foldl max 0).foldl max 0) ∧
    estimate_diameter ⟨1, 1⟩ [⟨[(0, 0), (3, 4)], true, 0⟩] = some 5 := by
  have hlen2 : ∀ c ∈ cs, (c.points.length ≠ 1 ↔ 2 ≤ c.points.length) := by
    intro c hc
    have h0 : c.points.length ≠ 0 := by
      intro h
      exact hne c hc (List.length_eq_zero.mp h)
    omega
  obtain ⟨char1, char2⟩ := diamLoop_char scan.pixel_spacing cs
  cases hres : diamLoop scan.pixel_spacing cs 0 none with
  | none =>
    exfalso
    obtain ⟨c, hc, hc2⟩ := hex
    have := char1.mp hres c hc
    omega
  | some di =>
    obtain ⟨d, i⟩ := di
    obtain ⟨hi, hne1, heqd, hmax, hfirst⟩ := char2 d i hres
    have hressq : estimate_diameter_sq scan cs = some (d, i) := hres
    have hd0 : 0 ≤ d := heqd ▸ contourDiamSq_nonneg _ _
    have hgetmem : cs.get ⟨i, hi⟩ ∈ cs := List.get_mem cs i hi
    have hile2 : 2 ≤ (cs.get ⟨i, hi⟩).points.length :=
      (hlen2 _ hgetmem).mp hne1
    have hdspec : d = diamSpecSq scan.pixel_spacing cs := by
      have hdmem : d ∈ (cs.filter fun c => 2 ≤ c.points.length).map
          fun c => contourDiamSq scan.pixel_spacing c.points := by
        refine List.mem_map.mpr ⟨cs.get ⟨i, hi⟩, ?_, heqd⟩
        refine List.mem_filter.mpr ⟨hgetmem, ?_⟩
        simpa using hile2
      have hub : ∀ y ∈ (cs.filter fun c => 2 ≤ c.points.length).map
          fun c => contourDiamSq scan.pixel_spacing c.points, y ≤ d := by
        intro y hy
        obtain ⟨c', hc', rfl⟩ := List.mem_map.mp hy
        obtain ⟨hc'mem, hc'p⟩ := List.mem_filter.mp hc'
        obtain ⟨n, hn⟩ := List.mem_iff_get.mp hc'mem
        have h2 : 2 ≤ c'.points.length := by simpa using hc'p
        have hne1' : (cs.get ⟨n.1, n.2⟩).points.length ≠ 1 := by
          rw [show (⟨n.1, n.2⟩ : Fin cs.length) = n from rfl, hn]
          omega
        have := hmax n.1 n.2 hne1'
        rwa [show (⟨n.1, n.2⟩ : Fin cs.length) = n from rfl, hn] at this
      exact (le_antisymm
        (foldlMax_le _ 0 d hd0 hub) (mem_le_foldlMax _ 0 d hdmem)).symm
    have hdiam : estimate_diameter scan cs = some (Real.sqrt (d : ℝ)) := by
      simp [estimate_diameter, hressq]
    refine ⟨⟨d, i, hressq, hdspec, hdiam, hi, hile2, heqd, ?_⟩, ?_, ?_⟩
    · intro j hj hji h2
      exact hfirst j hj hji ((hlen2 _ (List.get_mem cs j hj)).mpr h2)
    · rw [hdiam]
      congr 1
      have h0 : Real.sqrt ((0 : ℚ) : ℝ) = 0 := by simp
      rw [hdspec, diamSpecSq, sqrt_foldlMax, h0, List.map_map]
      have hfun : ((fun q : ℚ => Real.sqrt (q : ℝ)) ∘
          fun c => contourDiamSq scan.pixel_spacing c.points) =
          fun c : Contour =>
            ((pairSqDists (c.points.map (scalePt scan.pixel_spacing))).map
              fun q : ℚ => Real.sqrt (q : ℝ)).foldl max 0 := by
        funext c
        rw [Function.comp_apply,
          show contourDiamSq scan.pixel_spacing c.points =
            (pairSqDists (c.points.map (scalePt scan.pixel_spacing))).foldl
              max 0 from rfl,
          sqrt_foldlMax, h0]
      rw [hfun]
    · have hexsq : estimate_diameter_sq ⟨1, 1⟩ [⟨[(0, 0), (3, 4)], true, 0⟩] =
          some (25, 0) := by
        norm_num [estimate_diameter_sq, diamLoop, contourDiamSq, pairSqDists,
          sqDist, scalePt, max_def]
      rw [show estimate_diameter ⟨1, 1⟩ [⟨[(0, 0), (3, 4)], true, 0⟩] =
        (estimate_diameter_sq ⟨1, 1⟩ [⟨[(0, 0), (3, 4)], true, 0⟩]).map
          (fun di => Real.sqrt (di.1 : ℝ)) from rfl, hexsq]
      have h25 : Real.sqrt (25 : ℝ) = 5 := by
        rw [show (25 : ℝ) = 5 ^ 2 by norm_num]
        exact Real.sqrt_sq (by norm_num)
      simp [h25]

/-- Witness for `estimate_diameter_spec`: a single two-point contour with
points (0,0) and (3,4) at unit pixel spacing, whose diameter is 5 mm. -/
theorem estimate_diameter_spec_witness :
    (∀ c ∈ [(⟨[(0, 0), (3, 4)], true, 0⟩ : Contour)], c.points ≠ []) ∧
    estimate_diameter ⟨1, 1⟩ [⟨[(0, 0), (3, 4)], true, 0⟩] = some 5 :=
  ⟨by simp,
    (estimate_diameter_spec ⟨1, 1⟩ [⟨[(0, 0), (3, 4)], true, 0⟩]
      (by simp)
      ⟨⟨[(0, 0), (3, 4)], true, 0⟩, by simp, by norm_num⟩).2.2⟩

/-- C2 (code bug): the polygon-closing test appends the first point only
when BOTH coordinates of the first and last points differ (`.all()`), so
the contour `[(0,0), (1,0), (0,5)]` — whose first and last points differ,
but only in the y coordinate — is left unclosed, contradicting the
source's own comment "Turn the contour closed if it's not".  A contour
whose endpoints differ in both coordinates is closed as the claim says. -/
theorem closeContour_all_eval :
    closeContour [(0, 0), (1, 0), (0, 5)] = [(0, 0), (1, 0), (0, 5)] ∧
    ((0, 0) : ℚ × ℚ) ≠ (0, 5) ∧
    closeContour [(0, 0), (1, 0), (2, 5)] =
      [(0, 0), (1, 0), (2, 5), (0, 0)] := by
  refine ⟨?_, by decide, ?_⟩ <;> norm_num [closeContour, List.getLast?]

/-- The inclusion pass leaves the grid dimensions unchanged. -/
theorem inclPass_dims (contains : List (ℚ × ℚ) → ℚ × ℚ → Bool)
    (cs0 l : List Contour) (m : Grid3) :
    (l.foldl (inclStep contains cs0) m).nx = m.nx ∧
    (l.foldl (inclStep contains cs0) m).ny = m.ny ∧
    (l.foldl (inclStep contains cs0) m).nz = m.nz := by
  induction l generalizing m with
  | nil => exact ⟨rfl, rfl, rfl⟩
  | cons c rest ih =>
    have hstep : (inclStep contains cs0 m c).nx = m.nx ∧
        (inclStep contains cs0 m c).ny = m.ny ∧
        (inclStep contains cs0 m c).nz = m.nz := by
      by_cases h : c.inclusion <;> simp [inclStep, h]
    rw [List.foldl_cons]
    obtain ⟨h1, h2, h3⟩ := ih (inclStep contains cs0 m c)
    exact ⟨h1.trans hstep.1, h2.trans hstep.2.1, h3.trans hstep.2.2⟩

/-- The exclusion pass leaves the grid dimensions unchanged. -/
theorem exclPass_dims (contains : List (ℚ × ℚ) → ℚ × ℚ → Bool)
    (cs0 l : List Contour) (m : Grid3) :
    (l.foldl (exclStep contains cs0) m).nx = m.nx ∧
    (l.foldl (exclStep contains cs0) m).ny = m.ny ∧
    (l.foldl (exclStep contains cs0) m).nz = m.nz := by
  induction l generalizing m with
  | nil => exact ⟨rfl, rfl, rfl⟩
  | cons c rest ih =>
    have hstep : (exclStep contains cs0 m c).nx = m.nx ∧
        (exclStep contains cs0 m c).ny = m.ny ∧
        (exclStep contains cs0 m c).nz = m.nz := by
      by_cases h : c.inclusion <;> simp [exclStep, h]
    rw [List.foldl_cons]
    obtain ⟨h1, h2, h3⟩ := ih (exclStep contains cs0 m c)
    exact ⟨h1.trans hstep.1, h2.trans hstep.2.1, h3.trans hstep.2.2⟩

/-- Pointwise reading of one inclusion step. -/
theorem inclStep_val (contains : List (ℚ × ℚ) → ℚ × ℚ → Bool)
    (cs0 : List Contour) (m : Grid3) (c : Contour) (i j k : ℕ) :
    (inclStep contains cs0 m c).val i j k =
      if c.inclusion = true ∧ k = zIdxOf cs0 c.z then
        contains (closeContour c.points) (testPoint cs0 i j)
      else m.val i j k := by
  by_cases h : c.inclusion
  · by_cases hk : k = zIdxOf cs0 c.z <;> simp [inclStep, h, hk]
  · simp [inclStep, h]

/-- Pointwise reading of one exclusion step. -/
theorem exclStep_val (contains : List (ℚ × ℚ) → ℚ × ℚ → Bool)
    (cs0 : List Contour) (m : Grid3) (c : Contour) (i j k : ℕ) :
    (exclStep contains cs0 m c).val i j k =
      if c.inclusion = false ∧ k = zIdxOf cs0 c.z then
        m.val i j k && !contains (closeContour c.points) (testPoint cs0 i j)
      else m.val i j k := by
  by_cases h : c.inclusion
  · simp [exclStep, h]
  · by_cases hk : k = zIdxOf cs0 c.z <;>
      simp [exclStep, eq_false_of_ne_true h, hk]

/-- After the inclusion pass, a cell of slice `k` holds the containment
result of the LAST inclusion contour mapping to slice `k` — each inclusion
contour overwrites its whole slice — and is untouched when no inclusion
contour maps to `k`. -/
theorem inclPass_val (contains : List (ℚ × ℚ) → ℚ × ℚ → Bool)
    (cs0 : List Contour) (l : List Contour) (m : Grid3) (i j k : ℕ) :
    (l.foldl (inclStep contains cs0) m).val i j k =
      match (l.filter fun c =>
          c.inclusion && (zIdxOf cs0 c.z == k)).getLast? with
      | some c => contains (closeContour c.points) (testPoint cs0 i j)
      | none => m.val i j k := by
  induction l using List.reverseRecOn with
  | nil => rfl
  | append_singleton l c ih =>
    rw [List.foldl_append, List.foldl_cons, List.foldl_nil,
      List.filter_append, inclStep_val]
    by_cases hsel : c.inclusion = true ∧ k = zIdxOf cs0 c.z
    · have hfil : List.filter
          (fun c => c.inclusion && (zIdxOf cs0 c.z == k)) [c] = [c] := by
        simp [hsel.1, hsel.2.symm]
      rw [if_pos hsel, hfil, List.getLast?_concat]
    · have hfil : List.filter
          (fun c => c.inclusion && (zIdxOf cs0 c.z == k)) [c] = [] := by
        by_cases h1 : c.inclusion = true
        · have h2 : ¬ k = zIdxOf cs0 c.z := fun h => hsel ⟨h1, h⟩
          simp [h1]
          exact fun h => h2 h.symm
        · simp [h1]
      rw [if_neg hsel, hfil, List.append_nil]
      exact ih

/-- After the exclusion pass, a cell of slice `k` is its previous value
ANDed with the negated containment result of every exclusion contour
mapping to slice `k`. -/
theorem exclPass_val (contains : List (ℚ × ℚ) → ℚ × ℚ → Bool)
    (cs0 : List Contour) (l : List Contour) (m : Grid3) (i j k : ℕ) :
    (l.foldl (exclStep contains cs0) m).val i j k =
      (m.val i j k &&
        (l.filter fun c => (!c.inclusion) && (zIdxOf cs0 c.z == k)).all
          fun c => !contains (closeContour c.points) (testPoint cs0 i j)) := by
  induction l using List.reverseRecOn with
  | nil => simp
  | append_singleton l c ih =>
    rw [List.foldl_append, List.foldl_cons, List.foldl_nil,
      List.filter_append, exclStep_val]
    by_cases hsel : c.inclusion = false ∧ k = zIdxOf cs0 c.z
    · have hfil : List.filter
          (fun c => (!c.inclusion) && (zIdxOf cs0 c.z == k)) [c] = [c] := by
        simp [hsel.1, hsel.2.symm]
      rw [if_pos hsel, hfil, List.all_append, ih]
      simp [Bool.and_assoc]
    · have hfil : List.filter
          (fun c => (!c.inclusion) && (zIdxOf cs0 c.z == k)) [c] = [] := by
        by_cases h1 : c.inclusion = false
        · have h2 : ¬ k = zIdxOf cs0 c.z := fun h => hsel ⟨h1, h⟩
          simp [h1]
          exact fun h => h2 h.symm
        · simp [Bool.of_not_eq_false h1]
      rw [if_neg hsel, hfil, List.append_nil, ih]

/-- Reading a cell of the returned (axis-swapped) mask is reading the
internal grid with the first two indices swapped. -/
theorem as_boolean_mask_val (contains : List (ℚ × ℚ) → ℚ × ℚ → Bool)
    (cs : List Contour) (a b k : ℕ) :
    ((as_boolean_mask contains cs).1).val a b k =
      (cs.foldl (exclStep contains cs)
        (cs.foldl (inclStep contains cs)
          ⟨(truncInt ((bboxOf cs).r0.2 - (bboxOf cs).r0.1) + 1).toNat,
           (truncInt ((bboxOf cs).r1.2 - (bboxOf cs).r1.1) + 1).toNat,
           (dedupSort (cs.map (·.z))).length,
           fun _ _ _ => false⟩)).val b a k := rfl

/-- C7: when more than one inclusion contour maps to the same z slice (and
no exclusion contour carves that slice afterwards), the returned mask's
slice equals the containment result of the LAST such inclusion contour in
iteration order alone — each inclusion contour overwrites, rather than
unions with, the existing slice content. -/
theorem as_boolean_mask_overwrite (contains : List (ℚ × ℚ) → ℚ × ℚ → Bool)
    (cs : List Contour) (k : ℕ) (cL : Contour)
    (hlast : (cs.filter fun c =>
      c.inclusion && (zIdxOf cs c.z == k)).getLast? = some cL)
    (h2 : 2 ≤ (cs.filter fun c =>
      c.inclusion && (zIdxOf cs c.z == k)).length)
    (hexcl : (cs.filter fun c =>
      (!c.inclusion) && (zIdxOf cs c.z == k)) = [])
    (a b : ℕ) :
    ((as_boolean_mask contains cs).1).val a b k =
      contains (closeContour cL.points) (testPoint cs b a) := by
  rw [as_boolean_mask_val, exclPass_val, hexcl, inclPass_val, hlast]
  simp

/-- Witness for `as_boolean_mask_overwrite`: two unit-square inclusion
contours on the same slice; the slice reads the later one's containment. -/
theorem as_boolean_mask_overwrite_witness :
    (2 ≤ ([unitSquareAt 0, unitSquareAt 0].filter fun c =>
      c.inclusion && (zIdxOf [unitSquareAt 0, unitSquareAt 0] c.z == 0)).length) ∧
    ((as_boolean_mask (fun poly _ => decide (4 ≤ poly.length))
        [unitSquareAt 0, unitSquareAt 0]).1).val 0 0 0 =
      (fun poly (_ : ℚ × ℚ) => decide (4 ≤ poly.length))
        (closeContour (unitSquareAt 0).points)
        (testPoint [unitSquareAt 0, unitSquareAt 0] 0 0) :=
  ⟨by decide,
   as_boolean_mask_overwrite (fun poly _ => decide (4 ≤ poly.length))
     [unitSquareAt 0, unitSquareAt 0] 0 (unitSquareAt 0)
     (by decide) (by decide) (by decide) 0 0⟩

/-- C9: the mask returned by `as_boolean_mask` has its first two axes
swapped relative to the internal (x, y, z) grid — its shape is
`(ny, nx, nz)` with `nx`/`ny` the truncated-integer x/y extents of the
bounding box plus one (inclusive extents) and `nz` the number of distinct
contour z positions — and it is paired with the bounding box with its
first two rows swapped. -/
theorem as_boolean_mask_shape (contains : List (ℚ × ℚ) → ℚ × ℚ → Bool)
    (cs : List Contour) (h : cs ≠ []) :
    (as_boolean_mask contains cs).1.nx =
      (truncInt ((bboxOf cs).r1.2 - (bboxOf cs).r1.1) + 1).toNat ∧
    (as_boolean_mask contains cs).1.ny =
      (truncInt ((bboxOf cs).r0.2 - (bboxOf cs).r0.1) + 1).toNat ∧
    (as_boolean_mask contains cs).1.nz =
      (dedupSort (cs.map (·.z))).length ∧
    (as_boolean_mask contains cs).2 =
      ⟨(bboxOf cs).r1, (bboxOf cs).r0, (bboxOf cs).r2⟩ := by
  have hi := inclPass_dims contains cs cs
    ⟨(truncInt ((bboxOf cs).r0.2 - (bboxOf cs).r0.1) + 1).toNat,
     (truncInt ((bboxOf cs).r1.2 - (bboxOf cs).r1.1) + 1).toNat,
     (dedupSort (cs.map (·.z))).length,
     fun _ _ _ => false⟩
  have he := exclPass_dims contains cs cs
    (cs.foldl (inclStep contains cs)
      ⟨(truncInt ((bboxOf cs).r0.2 - (bboxOf cs).r0.1) + 1).toNat,
       (truncInt ((bboxOf cs).r1.2 - (bboxOf cs).r1.1) + 1).toNat,
       (dedupSort (cs.map (·.z))).length,
       fun _ _ _ => false⟩)
  exact ⟨he.2.1.trans hi.2.1, he.1.trans hi.1, he.2.2.trans hi.2.2, rfl⟩

/-- Witness for `as_boolean_mask_shape`: two unit squares on slices z = 0
and z = 3; the x span is 2 pixels, the y span 1 pixel, so the returned
mask has shape (2, 2, 2) after the axis swap (y extent first). -/
theorem as_boolean_mask_shape_witness :
    ([unitSquareAt 0, ⟨[(0, 0), (1, 0), (1, 1), (0, 1)], true, 3⟩] :
      List Contour) ≠ [] ∧
    (as_boolean_mask (fun _ _ => true)
      [unitSquareAt 0, ⟨[(0, 0), (1, 0), (1, 1), (0, 1)], true, 3⟩]).1.nz =
      (dedupSort ([unitSquareAt 0,
        ⟨[(0, 0), (1, 0), (1, 1), (0, 1)], true, 3⟩].map (·.z))).length :=
  ⟨by decide,
   (as_boolean_mask_shape (fun _ _ => true)
     [unitSquareAt 0, ⟨[(0, 0), (1, 0), (1, 1), (0, 1)], true, 3⟩]
     (by decide)).2.2.1⟩

/-- C8: for one inclusion contour and one exclusion contour on the same
slice, the returned mask at that slice is the inclusion containment ANDed
with the negated exclusion containment — so every pixel inside the
exclusion polygon is false and every pixel of the annulus (inside the
inclusion polygon, outside the exclusion polygon) is true. -/
theorem as_boolean_mask_carve (contains : List (ℚ × ℚ) → ℚ × ℚ → Bool)
    (cIn cEx : Contour) (hin : cIn.inclusion = true)
    (hex : cEx.inclusion = false) (hz : cEx.z = cIn.z) (a b : ℕ) :
    (((as_boolean_mask contains [cIn, cEx]).1).val a b
        (zIdxOf [cIn, cEx] cIn.z) =
      (contains (closeContour cIn.points) (testPoint [cIn, cEx] b a) &&
        !contains (closeContour cEx.points) (testPoint [cIn, cEx] b a))) ∧
    (contains (closeContour cEx.points) (testPoint [cIn, cEx] b a) = true →
      ((as_boolean_mask contains [cIn, cEx]).1).val a b
        (zIdxOf [cIn, cEx] cIn.z) = false) ∧
    (contains (closeContour cIn.points) (testPoint [cIn, cEx] b a) = true →
      contains (closeContour cEx.points) (testPoint [cIn, cEx] b a) = false →
      ((as_boolean_mask contains [cIn, cEx]).1).val a b
        (zIdxOf [cIn, cEx] cIn.z) = true) := by
  have hfi : List.filter (fun c =>
      c.inclusion && (zIdxOf [cIn, cEx] c.z == zIdxOf [cIn, cEx] cIn.z))
      [cIn, cEx] = [cIn] := by
    simp [hin, hex]
  have hfe : List.filter (fun c =>
      (!c.inclusion) && (zIdxOf [cIn, cEx] c.z == zIdxOf [cIn, cEx] cIn.z))
      [cIn, cEx] = [cEx] := by
    simp [hin, hex, hz]
  have hmain : ((as_boolean_mask contains [cIn, cEx]).1).val a b
      (zIdxOf [cIn, cEx] cIn.z) =
      (contains (closeContour cIn.points) (testPoint [cIn, cEx] b a) &&
        !contains (closeContour cEx.points) (testPoint [cIn, cEx] b a)) := by
    rw [as_boolean_mask_val, exclPass_val, hfe, inclPass_val, hfi]
    simp
  refine ⟨hmain, fun hc => ?_, fun h1 hc2 => ?_⟩
  · rw [hmain, hc]
    simp
  · rw [hmain, h1, hc2]
    simp

/-- Witness for `as_boolean_mask_carve`: a unit-square inclusion contour
with a triangular exclusion contour on the same slice; at the probed pixel
the inclusion test holds and the exclusion test does not, so the mask is
true there. -/
theorem as_boolean_mask_carve_witness :
    (unitSquareAt 0).inclusion = true ∧
    ((as_boolean_mask (fun poly _ => decide (poly.length = 4))
        [unitSquareAt 0, ⟨[(0, 0), (1, 0), (0, 1)], false, 0⟩]).1).val 0 0
      (zIdxOf [unitSquareAt 0, ⟨[(0, 0), (1, 0), (0, 1)], false, 0⟩]
        (unitSquareAt 0).z) = true :=
  ⟨by decide,
   (as_boolean_mask_carve (fun poly _ => decide (poly.length = 4))
     (unitSquareAt 0) ⟨[(0, 0), (1, 0), (0, 1)], false, 0⟩
     (by decide) (by decide) (by decide) 0 0).2.2 (by decide) (by decide)⟩

/-- C10: assigning any of the thirteen protected attribute names (id,
scan_id, _nodule_id, scan, and the nine characteristics) raises a
ValueError and produces no updated state, while assigning any name outside
the protected set yields the state updated at exactly that name. -/
theorem annotationSetattr_guard {V : Type} (repr_ : V → String)
    (state : String → Option V) (name : String) (value : V) :
    (name ∈ ["id", "scan_id", "_nodule_id", "scan", "subtlety",
        "internalStructure", "calcification", "sphericity", "margin",
        "lobulation", "spiculation", "texture", "malignancy"] →
      ∃ msg, annotationSetattr repr_ state name value = Except.error msg) ∧
    (name ∉ ["id", "scan_id", "_nodule_id", "scan", "subtlety",
        "internalStructure", "calcification", "sphericity", "margin",
        "lobulation", "spiculation", "texture", "malignancy"] →
      annotationSetattr repr_ state name value =
        Except.ok fun n => if n = name then some value else state n) := by
  have hlist : _off_limits = ["id", "scan_id", "_nodule_id", "scan",
      "subtlety", "internalStructure", "calcification", "sphericity",
      "margin", "lobulation", "spiculation", "texture", "malignancy"] := rfl
  constructor
  · intro h
    simp only [annotationSetattr]
    rw [if_pos (show name ∈ _off_limits by rw [hlist]; exact h)]
    exact ⟨_, rfl⟩
  · intro h
    simp only [annotationSetattr]
    rw [if_neg (by rw [hlist]; exact h)]

/-- Witness for `annotationSetattr_guard`: assigning `id` errors, while
assigning the unprotected name `foo` updates the state. -/
theorem annotationSetattr_guard_witness :
    ("id" ∈ ["id", "scan_id", "_nodule_id", "scan", "subtlety",
        "internalStructure", "calcification", "sphericity", "margin",
        "lobulation", "spiculation", "texture", "malignancy"]) ∧
    (∃ msg, annotationSetattr (fun n : ℕ => toString n) (fun _ => none)
      "id" 3 = Except.error msg) ∧
    annotationSetattr (fun n : ℕ => toString n) (fun _ => none) "foo" 3 =
      Except.ok fun n => if n = "foo" then some 3 else none :=
  ⟨by decide,
   (annotationSetattr_guard (fun n : ℕ => toString n)
     (fun _ => none) "id" 3).1 (by decide),
   (annotationSetattr_guard (fun n : ℕ => toString n)
     (fun _ => none) "foo" 3).2 (by decide)⟩

/-- Once the running best value is 0, no element has a strictly smaller
absolute difference, so the scan keeps its current best index. -/
theorem argminAbsAux_zero (t : ℚ) (l : List ℚ) : ∀ i bi : ℕ,
    argminAbsAux t l i bi 0 = bi := by
  induction l with
  | nil => intro i bi; rfl
  | cons v rest ih =>
    intro i bi
    simp only [argminAbsAux]
    rw [if_neg (not_lt.mpr (abs_nonneg _))]
    exact ih _ _

/-- While the running best value is positive and the target occurs in the
remaining list, the scan ends at the offset of the target's first
occurrence: elements differing from the target keep the best value
positive, and the first exact match drives it to 0 for good. -/
theorem argminAbsAux_mem (t : ℚ) (l : List ℚ) : ∀ (i bi : ℕ) (bv : ℚ),
    0 < bv → t ∈ l → argminAbsAux t l i bi bv = i + l.indexOf t := by
  induction l with
  | nil =>
    intro i bi bv _ h
    cases h
  | cons v rest ih =>
    intro i bi bv hbv hmem
    by_cases hv : v = t
    · simp only [argminAbsAux, hv, sub_self, abs_zero]
      rw [if_pos hbv, argminAbsAux_zero]
      simp [List.indexOf_cons, hv]
    · have hmem2 : t ∈ rest := by
        rcases List.mem_cons.mp hmem with h | h
        · exact absurd h.symm hv
        · exact h
      have hpos : 0 < |t - v| :=
        abs_pos.mpr (sub_ne_zero.mpr fun h => hv (by linarith))
      have hidx : (v :: rest).indexOf t = rest.indexOf t + 1 := by
        simp [List.indexOf_cons, hv]
      by_cases hlt : |t - v| < bv
      · simp only [argminAbsAux]
        rw [if_pos hlt, ih (i + 1) i (|t - v|) hpos hmem2, hidx]
        omega
      · simp only [argminAbsAux]
        rw [if_neg hlt, ih (i + 1) bi bv hbv hmem2, hidx]
        omega

/-- For a value present in the list, `np.argmin(np.abs(z - l))` is the
index of its first occurrence: the minimum absolute difference is 0 and
numpy's argmin keeps the first index attaining it. -/
theorem argminAbs_eq_indexOf (t : ℚ) (l : List ℚ) (h : t ∈ l) :
    argminAbs t l = l.indexOf t := by
  cases l with
  | nil => cases h
  | cons v rest =>
    by_cases hv : v = t
    · show argminAbsAux t rest 1 0 (|t - v|) = _
      rw [hv, sub_self, abs_zero, argminAbsAux_zero]
      simp [List.indexOf_cons, hv]
    · have hmem2 : t ∈ rest := by
        rcases List.mem_cons.mp h with h2 | h2
        · exact absurd h2.symm hv
        · exact h2
      have hpos : 0 < |t - v| :=
        abs_pos.mpr (sub_ne_zero.mpr fun h2 => hv (by linarith))
      show argminAbsAux t rest 1 0 (|t - v|) = _
      rw [argminAbsAux_mem t rest 1 0 (|t - v|) hpos hmem2]
      simp [List.indexOf_cons, hv]
      omega

/-- First-occurrence reading of `List.indexOf` for a present value. -/
theorem indexOf_first (l : List ℚ) (a : ℚ) (h : a ∈ l) :
    l.indexOf a < l.length ∧ l.getD (l.indexOf a) 0 = a ∧
    ∀ i, i < l.indexOf a → l.getD i 0 ≠ a := by
  induction l with
  | nil => cases h
  | cons v rest ih =>
    by_cases hv : v = a
    · subst hv
      have h0 : (v :: rest).indexOf v = 0 := by simp [List.indexOf_cons]
      rw [h0]
      exact ⟨Nat.succ_pos _, rfl, fun i hi => absurd hi (Nat.not_lt_zero i)⟩
    · have hmem2 : a ∈ rest := by
        rcases List.mem_cons.mp h with h2 | h2
        · exact absurd h2.symm hv
        · exact h2
      obtain ⟨h1, h2, h3⟩ := ih hmem2
      have hidx : (v :: rest).indexOf a = rest.indexOf a + 1 := by
        simp [List.indexOf_cons, hv]
      rw [hidx]
      refine ⟨by simpa using Nat.succ_lt_succ h1, by simpa using h2, ?_⟩
      intro i hi
      cases i with
      | zero => simpa using hv
      | succ i2 =>
        rw [List.getD_cons_succ]
        exact h3 i2 (by omega)

/-- `List.indexOf` is injective on present values. -/
theorem indexOf_inj_of_mem (l : List ℚ) (a b : ℚ) (ha : a ∈ l) (hb : b ∈ l)
    (h : l.indexOf a = l.indexOf b) : a = b := by
  obtain ⟨_, h2, _⟩ := indexOf_first l a ha
  obtain ⟨_, h4, _⟩ := indexOf_first l b hb
  rw [← h2, ← h4, h]

/-- Filtering `range n` for one value `k < n` leaves exactly `[k]`. -/
theorem range_filter_beq (n k : ℕ) (h : k < n) :
    (List.range n).filter (fun x => x == k) = [k] := by
  induction n with
  | zero => omega
  | succ n ih =>
    rw [List.range_succ, List.filter_append]
    by_cases hk : k < n
    · have hn : List.filter (fun x => x == k) [n] = [] := by
        simp
        omega
      rw [ih hk, hn, List.append_nil]
    · have hkn : k = n := by omega
      subst hkn
      have h1 : List.filter (fun x => x == k) (List.range k) = [] := by
        rw [List.filter_eq_nil_iff]
        intro a ha
        simp only [beq_iff_eq]
        have := List.mem_range.mp ha
        omega
      rw [h1]
      simp

/-- Characterization of the reconciliation fold: when every looked-up
contour z is present in the span, the fold succeeds, preserves the
dimensions of its seed, and each cell holds the slice of the LAST index
written to it (or the seed's value when never written). -/
theorem reconcileFold_spec (old : Grid3) (czs szs : List ℚ) (ks : List ℕ)
    (m : Grid3) (hmem : ∀ k ∈ ks, czs.getD k 0 ∈ szs) :
    ∃ m2, ks.foldlM (reconcileStep old czs szs) m = Except.ok m2 ∧
      m2.nx = m.nx ∧ m2.ny = m.ny ∧ m2.nz = m.nz ∧
      ∀ i j k2, m2.val i j k2 =
        match (ks.filter fun k =>
            szs.indexOf (czs.getD k 0) == k2).getLast? with
        | some k => old.val i j k
        | none => m.val i j k2 := by
  induction ks using List.reverseRecOn with
  | nil => exact ⟨m, rfl, rfl, rfl, rfl, fun i j k2 => rfl⟩
  | append_singleton ks k ih =>
    obtain ⟨m2, hm2, hx, hy, hz, hval⟩ := ih fun k2 hk2 =>
      hmem k2 (List.mem_append.mpr (Or.inl hk2))
    have hkmem : czs.getD k 0 ∈ szs :=
      hmem k (List.mem_append.mpr (Or.inr (List.mem_singleton.mpr rfl)))
    refine ⟨setSlice m2 (szs.indexOf (czs.getD k 0)) fun i j => old.val i j k,
      ?_, hx, hy, hz, ?_⟩
    · rw [List.foldlM_append, hm2]
      show (reconcileStep old czs szs m2 k >>= _) = _
      rw [reconcileStep, if_pos hkmem]
      rfl
    · intro i j k2
      rw [List.filter_append]
      by_cases hk2 : szs.indexOf (czs.getD k 0) = k2
      · have hfil : List.filter (fun k3 =>
            szs.indexOf (czs.getD k3 0) == k2) [k] = [k] := by
          have hb : (szs.indexOf (czs.getD k 0) == k2) = true :=
            beq_iff_eq.mpr hk2
          rw [List.filter_singleton, hb, cond_true]
        rw [hfil, List.getLast?_concat]
        show (if k2 = szs.indexOf (czs.getD k 0) then old.val i j k
          else m2.val i j k2) = old.val i j k
        rw [if_pos hk2.symm]
      · have hfil : List.filter (fun k3 =>
            szs.indexOf (czs.getD k3 0) == k2) [k] = [] := by
          have hb : (szs.indexOf (czs.getD k 0) == k2) = false :=
            beq_eq_false_iff_ne.mpr hk2
          rw [List.filter_singleton, hb, cond_false]
        rw [hfil, List.append_nil]
        have hvneq : (setSlice m2 (szs.indexOf (czs.getD k 0))
            fun i2 j2 => old.val i2 j2 k).val i j k2 = m2.val i j k2 := by
          show (if k2 = szs.indexOf (czs.getD k 0) then old.val i j k
            else m2.val i j k2) = m2.val i j k2
          rw [if_neg fun h => hk2 h.symm]
        rw [hvneq, hval]

/-- C3: when the mask's z-slice count differs from the contiguous
scan-slice index span, the reconciliation step of `to_volume` builds a new
mask sized to the full span, places each original z slice at the span
index nearest its contour's z position (the `argminAbs` of the z over the
span, which for a z present in the span is its first occurrence — exactly
the dictionary index the source uses), and leaves every slice not filled
this way all-false. -/
theorem to_volume_gap_reconciliation (old : Grid3)
    (contourZs spanZs : List ℚ) (span : ℕ)
    (hlen : contourZs.length = old.nz)
    (hnodup : contourZs.Nodup)
    (hmem : ∀ z ∈ contourZs, z ∈ spanZs)
    (htrigger : old.nz ≠ span) :
    ∃ m, reconcileMask old contourZs spanZs span = Except.ok m ∧
      m.nx = old.nx ∧ m.ny = old.ny ∧ m.nz = span ∧
      (∀ k, ∀ hk : k < contourZs.length, ∀ i j,
        m.val i j (argminAbs (contourZs.get ⟨k, hk⟩) spanZs) =
          old.val i j k) ∧
      (∀ k2, (∀ k, ∀ hk : k < contourZs.length,
          argminAbs (contourZs.get ⟨k, hk⟩) spanZs ≠ k2) →
        ∀ i j, m.val i j k2 = false) := by
  have hmemD : ∀ k ∈ List.range old.nz, contourZs.getD k 0 ∈ spanZs := by
    intro k hk
    have hk2 : k < contourZs.length := by
      rw [hlen]
      exact List.mem_range.mp hk
    rw [List.getD_eq_getElem contourZs 0 hk2]
    exact hmem _ (List.getElem_mem hk2)
  obtain ⟨m, hm, hx, hy, hz, hval⟩ := reconcileFold_spec old contourZs spanZs
    (List.range old.nz) ⟨old.nx, old.ny, span, fun _ _ _ => false⟩ hmemD
  refine ⟨m, hm, hx, hy, hz, ?_, ?_⟩
  · intro k hk i j
    have hzmem : contourZs.get ⟨k, hk⟩ ∈ spanZs :=
      hmem _ (List.get_mem contourZs k hk)
    rw [argminAbs_eq_indexOf _ _ hzmem, hval]
    have hfilter : (List.range old.nz).filter (fun k3 =>
        spanZs.indexOf (contourZs.getD k3 0) ==
          spanZs.indexOf (contourZs.get ⟨k, hk⟩)) = [k] := by
      have hcongr : ∀ a ∈ List.range old.nz,
          (spanZs.indexOf (contourZs.getD a 0) ==
            spanZs.indexOf (contourZs.get ⟨k, hk⟩)) = (a == k) := by
        intro a ha
        have ha2 : a < contourZs.length := by
          rw [hlen]
          exact List.mem_range.mp ha
        rw [List.getD_eq_getElem contourZs 0 ha2]
        by_cases hak : a = k
        · subst hak
          rw [show contourZs.get ⟨a, hk⟩ = contourZs[a] from
            List.get_eq_getElem contourZs ⟨a, hk⟩]
          simp
        · have hne : spanZs.indexOf contourZs[a] ≠
              spanZs.indexOf (contourZs.get ⟨k, hk⟩) := by
            intro he
            have heq2 : contourZs[a] = contourZs.get ⟨k, hk⟩ :=
              indexOf_inj_of_mem spanZs _ _
                (hmem _ (List.getElem_mem ha2)) hzmem he
            have : (⟨a, ha2⟩ : Fin contourZs.length) = ⟨k, hk⟩ :=
              (List.Nodup.get_inj_iff hnodup).mp
                (by rw [List.get_eq_getElem]; exact heq2)
            exact hak (congrArg Fin.val this)
          rw [beq_eq_false_iff_ne.mpr hne, beq_eq_false_iff_ne.mpr hak]
      rw [List.filter_congr hcongr]
      exact range_filter_beq old.nz k (by rw [← hlen]; exact hk)
    rw [hfilter]
    rfl
  · intro k2 hnone i j
    rw [hval]
    have hfilter2 : (List.range old.nz).filter (fun k3 =>
        spanZs.indexOf (contourZs.getD k3 0) == k2) = [] := by
      rw [List.filter_eq_nil_iff]
      intro a ha
      have ha2 : a < contourZs.length := by
        rw [hlen]
        exact List.mem_range.mp ha
      rw [List.getD_eq_getElem contourZs 0 ha2]
      simp only [beq_iff_eq]
      intro he
      apply hnone a ha2
      rw [argminAbs_eq_indexOf _ _ (hmem _ (List.get_mem contourZs a ha2)),
        List.get_eq_getElem]
      exact he
    rw [hfilter2]
    rfl

/-- Witness for `to_volume_gap_reconciliation`: a 2-slice mask whose
contours sit at z = 10 and z = 20 of the 3-slice span [10, 15, 20]. -/
theorem to_volume_gap_reconciliation_witness :
    sampleOldMask.nz ≠ 3 ∧
    ∃ m, reconcileMask sampleOldMask [10, 20] [10, 15, 20] 3 =
        Except.ok m ∧ m.nz = 3 := by
  refine ⟨by decide, ?_⟩
  obtain ⟨m, hm, _, _, hz, _, _⟩ := to_volume_gap_reconciliation
    sampleOldMask [10, 20] [10, 15, 20] 3 (by decide) (by decide)
    (by decide) (by decide)
  exact ⟨m, hm, hz⟩

/-- The internal grid's z length equals the number of distinct contour z
positions (the two passes only rewrite `val`). -/
theorem as_boolean_mask_nz (contains : List (ℚ × ℚ) → ℚ × ℚ → Bool)
    (cs : List Contour) :
    (as_boolean_mask contains cs).1.nz =
      (dedupSort (cs.map (·.z))).length := by
  have hi := inclPass_dims contains cs cs
    ⟨(truncInt ((bboxOf cs).r0.2 - (bboxOf cs).r0.1) + 1).toNat,
     (truncInt ((bboxOf cs).r1.2 - (bboxOf cs).r1.1) + 1).toNat,
     (dedupSort (cs.map (·.z))).length,
     fun _ _ _ => false⟩
  have he := exclPass_dims contains cs cs
    (cs.foldl (inclStep contains cs)
      ⟨(truncInt ((bboxOf cs).r0.2 - (bboxOf cs).r0.1) + 1).toNat,
       (truncInt ((bboxOf cs).r1.2 - (bboxOf cs).r1.1) + 1).toNat,
       (dedupSort (cs.map (·.z))).length,
       fun _ _ _ => false⟩)
  exact he.2.2.trans hi.2.2

/-- Bounds behavior of the post-reconciliation part of `to_volume`: an
error is raised if and only if one of the three axis conditions holds, the
z check first, then x, then y, each error carrying the two computed padded
indices of its axis; otherwise a result is produced. -/
theorem to_volume_core_bounds (images : List (ℚ × (ℕ → ℕ → ℤ)))
    (bbox : BBox3) (mask1 : Grid3) (zi_start zi_stop : ℕ)
    (pad : (ℕ × ℕ) × (ℕ × ℕ) × (ℕ × ℕ)) :
    ((∃ e, to_volume_core images bbox mask1 zi_start zi_stop pad =
        Except.error e) ↔
      ((zi_start : ℤ) - pad.2.2.1 < 0 ∨
        (zi_stop : ℤ) + pad.2.2.2 ≥ images.length) ∨
      (truncInt bbox.r0.1 - pad.1.1 < 0 ∨
        truncInt bbox.r0.2 + 1 + pad.1.2 ≥ 512) ∨
      (truncInt bbox.r1.1 - pad.2.1.1 < 0 ∨
        truncInt bbox.r1.2 + 1 + pad.2.1.2 ≥ 512)) ∧
    (((zi_start : ℤ) - pad.2.2.1 < 0 ∨
        (zi_stop : ℤ) + pad.2.2.2 ≥ images.length) →
      to_volume_core images bbox mask1 zi_start zi_stop pad =
        Except.error (VolumeError.zOut ((zi_start : ℤ) - pad.2.2.1)
          ((zi_stop : ℤ) + pad.2.2.2))) ∧
    (¬((zi_start : ℤ) - pad.2.2.1 < 0 ∨
        (zi_stop : ℤ) + pad.2.2.2 ≥ images.length) →
      (truncInt bbox.r0.1 - pad.1.1 < 0 ∨
        truncInt bbox.r0.2 + 1 + pad.1.2 ≥ 512) →
      to_volume_core images bbox mask1 zi_start zi_stop pad =
        Except.error (VolumeError.xOut (truncInt bbox.r0.1 - pad.1.1)
          (truncInt bbox.r0.2 + 1 + pad.1.2))) ∧
    (¬((zi_start : ℤ) - pad.2.2.1 < 0 ∨
        (zi_stop : ℤ) + pad.2.2.2 ≥ images.length) →
      ¬(truncInt bbox.r0.1 - pad.1.1 < 0 ∨
        truncInt bbox.r0.2 + 1 + pad.1.2 ≥ 512) →
      (truncInt bbox.r1.1 - pad.2.1.1 < 0 ∨
        truncInt bbox.r1.2 + 1 + pad.2.1.2 ≥ 512) →
      to_volume_core images bbox mask1 zi_start zi_stop pad =
        Except.error (VolumeError.yOut (truncInt bbox.r1.1 - pad.2.1.1)
          (truncInt bbox.r1.2 + 1 + pad.2.1.2))) := by
  by_cases hz : (zi_start : ℤ) - pad.2.2.1 < 0 ∨
      (zi_stop : ℤ) + pad.2.2.2 ≥ images.length
  · have hcore : to_volume_core images bbox mask1 zi_start zi_stop pad =
        Except.error (VolumeError.zOut ((zi_start : ℤ) - pad.2.2.1)
          ((zi_stop : ℤ) + pad.2.2.2)) := by
      simp only [to_volume_core]
      rw [if_pos hz]
    exact ⟨⟨fun _ => Or.inl hz, fun _ => ⟨_, hcore⟩⟩, fun _ => hcore,
      fun hnz => absurd hz hnz, fun hnz => absurd hz hnz⟩
  · by_cases hx : truncInt bbox.r0.1 - pad.1.1 < 0 ∨
        truncInt bbox.r0.2 + 1 + pad.1.2 ≥ 512
    · have hcore : to_volume_core images bbox mask1 zi_start zi_stop pad =
          Except.error (VolumeError.xOut (truncInt bbox.r0.1 - pad.1.1)
            (truncInt bbox.r0.2 + 1 + pad.1.2)) := by
        simp only [to_volume_core]
        rw [if_neg hz, if_pos hx]
      exact ⟨⟨fun _ => Or.inr (Or.inl hx), fun _ => ⟨_, hcore⟩⟩,
        fun h => absurd h hz, fun _ _ => hcore,
        fun _ hnx => absurd hx hnx⟩
    · by_cases hy : truncInt bbox.r1.1 - pad.2.1.1 < 0 ∨
          truncInt bbox.r1.2 + 1 + pad.2.1.2 ≥ 512
      · have hcore : to_volume_core images bbox mask1 zi_start zi_stop pad =
            Except.error (VolumeError.yOut (truncInt bbox.r1.1 - pad.2.1.1)
              (truncInt bbox.r1.2 + 1 + pad.2.1.2)) := by
          simp only [to_volume_core]
          rw [if_neg hz, if_neg hx, if_pos hy]
        exact ⟨⟨fun _ => Or.inr (Or.inr hy), fun _ => ⟨_, hcore⟩⟩,
          fun h => absurd h hz, fun _ h => absurd h hx, fun _ _ _ => hcore⟩
      · have hok : ∃ r, to_volume_core images bbox mask1 zi_start zi_stop
            pad = Except.ok r := by
          simp only [to_volume_core]
          rw [if_neg hz, if_neg hx, if_neg hy]
          exact ⟨_, rfl⟩
        obtain ⟨r, hr⟩ := hok
        refine ⟨⟨?_, ?_⟩, fun h => absurd h hz, fun _ h => absurd h hx,
          fun _ _ h => absurd h hy⟩
        · rintro ⟨e, he⟩
          rw [hr] at he
          exact absurd he (by simp)
        · intro h
          exfalso
          rcases h with h | h | h
          · exact hz h
          · exact hx h
          · exact hy h

/-- C6: `to_volume` raises an error naming the axis and the computed
out-of-range indices if and only if the requested padding pushes an index
outside the valid extent (z: padded start below 0 or padded stop at or
beyond the image count; x and y: padded lower index below 0 or padded
upper index at or beyond the 512-pixel frame); on such an error no
(intensity, mask, bbox) output is produced — the `Except` result carries
either the error or the full triple, never a clamped or partial result.
The hypothesis rules out the unrelated dictionary `KeyError` of the gap
reconciliation by requiring every contour z to lie in the span. -/
theorem to_volume_bounds (contains : List (ℚ × ℚ) → ℚ × ℚ → Bool)
    (images : List (ℚ × (ℕ → ℕ → ℤ))) (cs : List Contour)
    (pad : (ℕ × ℕ) × (ℕ × ℕ) × (ℕ × ℕ))
    (hrec : ∀ z ∈ dedupSort (cs.map (·.z)),
      z ∈ spanZsOf contains images cs) :
    ((∃ e, to_volume contains images cs pad = Except.error e) ↔
      ((ziStartOf contains images cs : ℤ) - pad.2.2.1 < 0 ∨
        (ziStopOf contains images cs : ℤ) + pad.2.2.2 ≥ images.length) ∨
      (truncInt ((as_boolean_mask contains cs).2.r0.1) - pad.1.1 < 0 ∨
        truncInt ((as_boolean_mask contains cs).2.r0.2) + 1 + pad.1.2 ≥
          512) ∨
      (truncInt ((as_boolean_mask contains cs).2.r1.1) - pad.2.1.1 < 0 ∨
        truncInt ((as_boolean_mask contains cs).2.r1.2) + 1 + pad.2.1.2 ≥
          512)) ∧
    (((ziStartOf contains images cs : ℤ) - pad.2.2.1 < 0 ∨
        (ziStopOf contains images cs : ℤ) + pad.2.2.2 ≥ images.length) →
      to_volume contains images cs pad = Except.error
        (VolumeError.zOut ((ziStartOf contains images cs : ℤ) - pad.2.2.1)
          ((ziStopOf contains images cs : ℤ) + pad.2.2.2))) ∧
    (¬((ziStartOf contains images cs : ℤ) - pad.2.2.1 < 0 ∨
        (ziStopOf contains images cs : ℤ) + pad.2.2.2 ≥ images.length) →
      (truncInt ((as_boolean_mask contains cs).2.r0.1) - pad.1.1 < 0 ∨
        truncInt ((as_boolean_mask contains cs).2.r0.2) + 1 + pad.1.2 ≥
          512) →
      to_volume contains images cs pad = Except.error
        (VolumeError.xOut
          (truncInt ((as_boolean_mask contains cs).2.r0.1) - pad.1.1)
          (truncInt ((as_boolean_mask contains cs).2.r0.2) + 1 +
            pad.1.2))) ∧
    (¬((ziStartOf contains images cs : ℤ) - pad.2.2.1 < 0 ∨
        (ziStopOf contains images cs : ℤ) + pad.2.2.2 ≥ images.length) →
      ¬(truncInt ((as_boolean_mask contains cs).2.r0.1) - pad.1.1 < 0 ∨
        truncInt ((as_boolean_mask contains cs).2.r0.2) + 1 + pad.1.2 ≥
          512) →
      (truncInt ((as_boolean_mask contains cs).2.r1.1) - pad.2.1.1 < 0 ∨
        truncInt ((as_boolean_mask contains cs).2.r1.2) + 1 + pad.2.1.2 ≥
          512) →
      to_volume contains images cs pad = Except.error
        (VolumeError.yOut
          (truncInt ((as_boolean_mask contains cs).2.r1.1) - pad.2.1.1)
          (truncInt ((as_boolean_mask contains cs).2.r1.2) + 1 +
            pad.2.1.2))) := by
  have hM : ∃ M, (if (as_boolean_mask contains cs).1.nz ≠
        spanOf contains images cs
      then reconcileMask (as_boolean_mask contains cs).1
        (dedupSort (cs.map (·.z))) (spanZsOf contains images cs)
        (spanOf contains images cs)
      else Except.ok (as_boolean_mask contains cs).1) = Except.ok M := by
    by_cases ht : (as_boolean_mask contains cs).1.nz ≠
        spanOf contains images cs
    · rw [if_pos ht]
      have hmemD : ∀ k ∈ List.range (as_boolean_mask contains cs).1.nz,
          (dedupSort (cs.map (·.z))).getD k 0 ∈
            spanZsOf contains images cs := by
        intro k hk
        have hk2 : k < (dedupSort (cs.map (·.z))).length := by
          rw [← as_boolean_mask_nz contains cs]
          exact List.mem_range.mp hk
        rw [List.getD_eq_getElem _ 0 hk2]
        exact hrec _ (List.getElem_mem hk2)
      obtain ⟨m, hm, _, _, _, _⟩ := reconcileFold_spec
        (as_boolean_mask contains cs).1 (dedupSort (cs.map (·.z)))
        (spanZsOf contains images cs)
        (List.range (as_boolean_mask contains cs).1.nz)
        ⟨(as_boolean_mask contains cs).1.nx,
         (as_boolean_mask contains cs).1.ny,
         spanOf contains images cs, fun _ _ _ => false⟩ hmemD
      exact ⟨m, hm⟩
    · rw [if_neg ht]
      exact ⟨_, rfl⟩
  obtain ⟨M, hM⟩ := hM
  have heq : to_volume contains images cs pad =
      to_volume_core images (as_boolean_mask contains cs).2 M
        (ziStartOf contains images cs) (ziStopOf contains images cs)
        pad := by
    simp only [to_volume]
    rw [hM]
  obtain ⟨hiff, hzc, hxc, hyc⟩ := to_volume_core_bounds images
    (as_boolean_mask contains cs).2 M (ziStartOf contains images cs)
    (ziStopOf contains images cs) pad
  rw [heq]
  exact ⟨hiff, hzc, hxc, hyc⟩

/-- Witness for `to_volume_bounds`: one unit-square contour at z = 0 over
a single-image stack; a z padding of one slice before the nodule pushes
the start index to −1 and raises the z bounds error. -/
theorem to_volume_bounds_witness :
    (∀ z ∈ dedupSort ([unitSquareAt 0].map (·.z)),
      z ∈ spanZsOf (fun _ _ => true) [((0 : ℚ), fun _ _ => (0 : ℤ))]
        [unitSquareAt 0]) ∧
    to_volume (fun _ _ => true) [((0 : ℚ), fun _ _ => (0 : ℤ))]
        [unitSquareAt 0] ((0, 0), (0, 0), (1, 0)) =
      Except.error (VolumeError.zOut
        ((ziStartOf (fun _ _ => true) [((0 : ℚ), fun _ _ => (0 : ℤ))]
          [unitSquareAt 0] : ℤ) - 1)
        ((ziStopOf (fun _ _ => true) [((0 : ℚ), fun _ _ => (0 : ℤ))]
          [unitSquareAt 0] : ℤ) + 0)) :=
  ⟨by decide,
   (to_volume_bounds (fun _ _ => true) [((0 : ℚ), fun _ _ => (0 : ℤ))]
     [unitSquareAt 0] ((0, 0), (0, 0), (1, 0)) (by decide)).2.1
     (Or.inl (by decide))⟩
